import Mathlib

/-!
Verification development for the salt-common identity-and-position layer:
a shallow embedding of the string-interning table (`StrIntern`), the
identity wrappers (`Filename`, `Symbol`) and the position hierarchy
(`Point`, `Location`, `FilePosition`, `BasicPosition`, `DWARFPosition`),
together with theorems settling the specification claims.
-/

namespace SaltCommon

/-- One interned-string reference: a storage address together with the text
stored there.  Models a Rust `&'s str` fat pointer (data address, and the
bytes it designates). -/
structure StrRef where
  addr : Nat
  content : String
deriving DecidableEq

/-- The interning table `StrIntern<'s>`: the content-keyed map
`HashMap<&'s str, &'s str>` modelled as the list of stored canonical
references in insertion order (keys are content-equal to their values). -/
abbrev StrIntern := List StrRef

/-- Content-keyed lookup in the table: the map lookup performed by
`self.0.entry(str)` (HashMap keys are `&str`, compared by content). -/
def StrIntern.lookup : StrIntern → String → Option StrRef
  | [], _ => none
  | r :: t, c => if r.content == c then some r else StrIntern.lookup t c

/-- `StrIntern::intern`: an occupied entry returns the previously stored
reference (`ent.get()`); a vacant entry stores the given reference and
returns it (`ent.insert(str)`). -/
def StrIntern.intern (t : StrIntern) (s : StrRef) : StrRef × StrIntern :=
  match StrIntern.lookup t s.content with
  | some r => (r, t)
  | none => (s, t ++ [s])

/-- Repeated interning of a whole list of strings, one after the other
(the table as it evolves over its lifetime). -/
def StrIntern.internAll (t : StrIntern) : List StrRef → StrIntern
  | [] => t
  | s :: ss => StrIntern.internAll (StrIntern.intern t s).2 ss

/-- `StrIntern::len`: the number of distinct interned contents. -/
def StrIntern.len (t : StrIntern) : Nat := t.length

/-- `StrIntern::strings`: the stored canonical references (the values of
the underlying map). -/
def StrIntern.strings (t : StrIntern) : List StrRef := t

/-- Three-way comparison on `Nat`, the semantics of Rust `usize::cmp` /
`u32::cmp`. -/
def natCmp (a b : Nat) : Ordering :=
  if a < b then .lt else if b < a then .gt else .eq

/-- Lexicographic comparison of lists (Rust `Vec`/slice `Ord`). -/
def listCmp (f : α → α → Ordering) : List α → List α → Ordering
  | [], [] => .eq
  | [], _ :: _ => .lt
  | _ :: _, [] => .gt
  | a :: as, b :: bs => (f a b).then (listCmp f as bs)

/-- Comparison of characters by code point (Rust byte order on UTF-8 agrees
with code-point order). -/
def charCmp (a b : Char) : Ordering := natCmp a.toNat b.toNat

/-- Lexicographic content comparison of strings: Rust `str::cmp`. -/
def strCmp (a b : String) : Ordering := listCmp charCmp a.data b.data

/-- Rendering of a raw pointer address, as Rust `{:?}` on `*const str`
prints the data address in hexadecimal. -/
def ptrString (a : Nat) : String := "0x" ++ String.mk (Nat.toDigits 16 a)

/-- `Filename<'a>(&'a str)`: a wrapper around one interned-string
reference. -/
structure Filename where
  ref : StrRef
deriving DecidableEq

/-- `impl PartialEq for Filename`: `self.0 as *const _ == other.0 as *const _`,
fat-pointer equality on `*const str` (data address and length metadata). -/
def Filename.beq (a b : Filename) : Bool :=
  a.ref.addr == b.ref.addr && a.ref.content.utf8ByteSize == b.ref.content.utf8ByteSize

/-- `impl PartialOrd for Filename`: compares the two data addresses cast to
`usize`. -/
def Filename.pcmp (a b : Filename) : Option Ordering :=
  some (natCmp a.ref.addr b.ref.addr)

/-- `impl Hash for Filename`: `state.write_usize(addr)`, the data address. -/
def Filename.hash (a : Filename) : Nat := a.ref.addr

/-- The derived `Ord` on `Filename` (`#[derive(Ord)]` on a `&str` field):
content-lexicographic `str::cmp`. -/
def Filename.ordCmp (a b : Filename) : Ordering :=
  strCmp a.ref.content b.ref.content

/-- `impl Display for Filename`: the text content. -/
def Filename.display (a : Filename) : String := a.ref.content

/-- `impl Debug for Filename`: `write!(f, "{:?}", self.0 as *const _)`, the
storage address. -/
def Filename.debug (a : Filename) : String := ptrString a.ref.addr

/-- `Symbol<'a>(&'a str)`: a wrapper around one interned-string
reference. -/
structure Symbol where
  ref : StrRef
deriving DecidableEq

/-- `impl PartialEq for Symbol`: fat-pointer equality on `*const str`. -/
def Symbol.beq (a b : Symbol) : Bool :=
  a.ref.addr == b.ref.addr && a.ref.content.utf8ByteSize == b.ref.content.utf8ByteSize

/-- `impl PartialOrd for Symbol`: compares the two data addresses. -/
def Symbol.pcmp (a b : Symbol) : Option Ordering :=
  some (natCmp a.ref.addr b.ref.addr)

/-- `impl Hash for Symbol`: `state.write_usize(addr)`. -/
def Symbol.hash (a : Symbol) : Nat := a.ref.addr

/-- `impl Display for Symbol`: the text content. -/
def Symbol.display (a : Symbol) : String := a.ref.content

/-- `impl Debug for Symbol`: `write!(f, "{}", self.0)` — the text content
(unlike `Filename`, not the address). -/
def Symbol.debug (a : Symbol) : String := a.ref.content

/-- `Point`: a (line, column) pair, both starting at 1 (`u32` fields). -/
structure Point where
  line : Nat
  col : Nat
deriving DecidableEq

/-- `impl PartialEq for Point`: both components equal. -/
def Point.beq (a b : Point) : Bool :=
  a.line == b.line && a.col == b.col

/-- `Point` comparison: `line.cmp` then `col.cmp` (the manual `PartialOrd`
and the derived `Ord` coincide). -/
def Point.cmp (a b : Point) : Ordering :=
  (natCmp a.line b.line).then (natCmp a.col b.col)

/-- `impl Display for Point`: `line.col`. -/
def Point.display (p : Point) : String :=
  toString p.line ++ "." ++ toString p.col

/-- `Location`: a span between two points, or a single point. -/
inductive Location where
  | Span (start stop : Point)
  | Point (point : Point)
deriving DecidableEq

/-- `impl PartialEq for Location`, exactly as written in the source: the
`Span`/`Span` arm tests `start1 == end1 && start2 == end2` (each span's own
endpoints against each other). -/
def Location.beq : Location → Location → Bool
  | .Span start1 end1, .Span start2 end2 =>
    Point.beq start1 end1 && Point.beq start2 end2
  | .Point point1, .Point point2 => Point.beq point1 point2
  | _, _ => false

/-- `impl PartialOrd for Location`: spans compare lexicographically by
(start, end); any `Span` is less than any `Point`. -/
def Location.pcmp : Location → Location → Option Ordering
  | .Span start1 end1, .Span start2 end2 =>
    some ((Point.cmp start1 start2).then (Point.cmp end1 end2))
  | .Span _ _, .Point _ => some .lt
  | .Point _, .Span _ _ => some .gt
  | .Point point1, .Point point2 => some (Point.cmp point1 point2)

/-- The derived `Ord` on `Location` (variant order `Span < Point`, then
fields lexicographically); it agrees with the manual `PartialOrd`. -/
def Location.ordCmp : Location → Location → Ordering
  | .Span start1 end1, .Span start2 end2 =>
    (Point.cmp start1 start2).then (Point.cmp end1 end2)
  | .Span _ _, .Point _ => .lt
  | .Point _, .Span _ _ => .gt
  | .Point point1, .Point point2 => Point.cmp point1 point2

/-- `impl Display for Location`: `line.startcol-endcol` when the span's
endpoints share a line, else `start-end`; a lone point as the point. -/
def Location.display : Location → String
  | .Span s e =>
    if s.line = e.line then
      toString s.line ++ "." ++ toString s.col ++ "-" ++ toString e.col
    else
      Point.display s ++ "-" ++ Point.display e
  | .Point p => Point.display p

/-- `FilePosition<'a>`: a `Filename` paired with a `Location`. -/
structure FilePosition where
  filename : Filename
  loc : Location
deriving DecidableEq

/-- `impl PartialEq for FilePosition`: filename identity, then location. -/
def FilePosition.beq (a b : FilePosition) : Bool :=
  Filename.beq a.filename b.filename && Location.beq a.loc b.loc

/-- `FilePosition` comparison: `filename.cmp` (the derived, content-based
`Ord` on `Filename`) then `loc.cmp`; the manual `PartialOrd` body and the
derived `Ord` coincide. -/
def FilePosition.ordCmp (a b : FilePosition) : Ordering :=
  (Filename.ordCmp a.filename b.filename).then (Location.ordCmp a.loc b.loc)

/-- `impl Display for FilePosition`: `filename location`. -/
def FilePosition.display (a : FilePosition) : String :=
  Filename.display a.filename ++ " " ++ Location.display a.loc

/-- `PositionInfo::location` for `FilePosition`:
`Some((filename, Some(loc)))`. -/
def FilePosition.location (a : FilePosition) : Option (Filename × Option Location) :=
  some (a.filename, some a.loc)

/-- `BasicPosition<'a>`: content, whole-file, command-line, or synthetic. -/
inductive BasicPosition where
  | Content (filepos : FilePosition)
  | File (filename : Filename)
  | CmdLine (idxs : List Nat)
  | Synthetic (desc : String)
deriving DecidableEq

/-- `impl PartialEq for BasicPosition`: variant-matched component
equality. -/
def BasicPosition.beq : BasicPosition → BasicPosition → Bool
  | .Content filepos1, .Content filepos2 => FilePosition.beq filepos1 filepos2
  | .File filename1, .File filename2 => Filename.beq filename1 filename2
  | .CmdLine idxs1, .CmdLine idxs2 => decide (idxs1 = idxs2)
  | .Synthetic desc1, .Synthetic desc2 => decide (desc1 = desc2)
  | _, _ => false

/-- `impl PartialOrd for BasicPosition`, mirroring the source's arm order:
same-variant arms compare components (with the derived `Ord` of each field
type), and the catch-all arms fix `Content < File < CmdLine < Synthetic`. -/
def BasicPosition.pcmp : BasicPosition → BasicPosition → Option Ordering
  | .Content filepos1, .Content filepos2 =>
    some (FilePosition.ordCmp filepos1 filepos2)
  | .Content _, _ => some .lt
  | _, .Content _ => some .gt
  | .File filename1, .File filename2 =>
    some (Filename.ordCmp filename1 filename2)
  | .File _, _ => some .lt
  | _, .File _ => some .gt
  | .CmdLine idxs1, .CmdLine idxs2 => some (listCmp natCmp idxs1 idxs2)
  | .CmdLine _, _ => some .lt
  | _, .CmdLine _ => some .gt
  | .Synthetic desc1, .Synthetic desc2 => some (strCmp desc1 desc2)

/-- The derived `Ord` on `BasicPosition`; it agrees with the manual
`PartialOrd` (used through `pos1.cmp(pos2)` in `DWARFPosition`). -/
def BasicPosition.ordCmp : BasicPosition → BasicPosition → Ordering
  | .Content filepos1, .Content filepos2 => FilePosition.ordCmp filepos1 filepos2
  | .Content _, _ => .lt
  | _, .Content _ => .gt
  | .File filename1, .File filename2 => Filename.ordCmp filename1 filename2
  | .File _, _ => .lt
  | _, .File _ => .gt
  | .CmdLine idxs1, .CmdLine idxs2 => listCmp natCmp idxs1 idxs2
  | .CmdLine _, _ => .lt
  | _, .CmdLine _ => .gt
  | .Synthetic desc1, .Synthetic desc2 => strCmp desc1 desc2

/-- `PositionInfo::location` for `BasicPosition`. -/
def BasicPosition.location : BasicPosition → Option (Filename × Option Location)
  | .Content filepos => FilePosition.location filepos
  | .File filename => some (filename, none)
  | .CmdLine _ => none
  | .Synthetic _ => none

/-- Variant rank of `BasicPosition` in the fixed cross-variant order
`Content < File < CmdLine < Synthetic`. -/
def BasicPosition.rank : BasicPosition → Nat
  | .Content _ => 0
  | .File _ => 1
  | .CmdLine _ => 2
  | .Synthetic _ => 3

/-- `DWARFPosition<'a, T, D>`: definition, type definition, nested block
(exclusively owning its context position), or basic position. -/
inductive DWARFPosition (T D : Type) where
  | Def (id : D) (pos : FilePosition)
  | TypeDef (id : T) (pos : FilePosition)
  | Block (ctx : DWARFPosition T D) (pos : FilePosition)
  | Basic (pos : BasicPosition)

/-- `impl PartialEq for DWARFPosition` with `T: Eq, D: Eq`, the identifier
equalities passed as functions. -/
def DWARFPosition.beq (eqT : T → T → Bool) (eqD : D → D → Bool) :
    DWARFPosition T D → DWARFPosition T D → Bool
  | .Def id1 pos1, .Def id2 pos2 => eqD id1 id2 && FilePosition.beq pos1 pos2
  | .TypeDef id1 pos1, .TypeDef id2 pos2 =>
    eqT id1 id2 && FilePosition.beq pos1 pos2
  | .Block ctx1 pos1, .Block ctx2 pos2 =>
    DWARFPosition.beq eqT eqD ctx1 ctx2 && FilePosition.beq pos1 pos2
  | .Basic pos1, .Basic pos2 => BasicPosition.beq pos1 pos2
  | _, _ => false

/-- The derived `Ord` on `DWARFPosition` (used through `ctx1.cmp(ctx2)` in
the `Block` arm); it agrees with the manual `PartialOrd`. -/
def DWARFPosition.ordCmp (cmpT : T → T → Ordering) (cmpD : D → D → Ordering) :
    DWARFPosition T D → DWARFPosition T D → Ordering
  | .Def id1 pos1, .Def id2 pos2 =>
    (cmpD id1 id2).then (FilePosition.ordCmp pos1 pos2)
  | .Def _ _, _ => .lt
  | _, .Def _ _ => .gt
  | .TypeDef id1 pos1, .TypeDef id2 pos2 =>
    (cmpT id1 id2).then (FilePosition.ordCmp pos1 pos2)
  | .TypeDef _ _, _ => .lt
  | _, .TypeDef _ _ => .gt
  | .Block ctx1 pos1, .Block ctx2 pos2 =>
    (DWARFPosition.ordCmp cmpT cmpD ctx1 ctx2).then (FilePosition.ordCmp pos1 pos2)
  | .Block _ _, _ => .lt
  | _, .Block _ _ => .gt
  | .Basic pos1, .Basic pos2 => BasicPosition.ordCmp pos1 pos2

/-- `impl PartialOrd for DWARFPosition` with `T: Ord, D: Ord`, mirroring
the source's arm order with its catch-alls
(`Def < TypeDef < Block < Basic`). -/
def DWARFPosition.pcmp (cmpT : T → T → Ordering) (cmpD : D → D → Ordering) :
    DWARFPosition T D → DWARFPosition T D → Option Ordering
  | .Def id1 pos1, .Def id2 pos2 =>
    some ((cmpD id1 id2).then (FilePosition.ordCmp pos1 pos2))
  | .Def _ _, _ => some .lt
  | _, .Def _ _ => some .gt
  | .TypeDef id1 pos1, .TypeDef id2 pos2 =>
    some ((cmpT id1 id2).then (FilePosition.ordCmp pos1 pos2))
  | .TypeDef _ _, _ => some .lt
  | _, .TypeDef _ _ => some .gt
  | .Block ctx1 pos1, .Block ctx2 pos2 =>
    some ((DWARFPosition.ordCmp cmpT cmpD ctx1 ctx2).then
      (FilePosition.ordCmp pos1 pos2))
  | .Block _ _, _ => some .lt
  | _, .Block _ _ => some .gt
  | .Basic pos1, .Basic pos2 => some (BasicPosition.ordCmp pos1 pos2)

/-- Variant rank of `DWARFPosition` in the fixed cross-variant order
`Def < TypeDef < Block < Basic`. -/
def DWARFPosition.rank : DWARFPosition T D → Nat
  | .Def _ _ => 0
  | .TypeDef _ _ => 1
  | .Block _ _ => 2
  | .Basic _ => 3

/-- Nesting depth of the `Block` context chain. -/
def DWARFPosition.depth : DWARFPosition T D → Nat
  | .Block ctx _ => DWARFPosition.depth ctx + 1
  | _ => 0

/-! ### Helper lemmas -/

theorem Ordering.then_swap (o₁ o₂ : Ordering) :
    (o₁.then o₂).swap = o₁.swap.then o₂.swap := by
  cases o₁ <;> rfl

theorem natCmp_swap (a b : Nat) : natCmp a b = (natCmp b a).swap := by
  unfold natCmp
  by_cases h1 : a < b
  · simp [h1, Nat.lt_asymm h1, Ordering.swap]
  · by_cases h2 : b < a
    · simp [h1, h2, Ordering.swap]
    · simp [h1, h2, Ordering.swap]

theorem natCmp_self (a : Nat) : natCmp a a = .eq := by
  simp [natCmp]

theorem charCmp_swap (a b : Char) : charCmp a b = (charCmp b a).swap :=
  natCmp_swap _ _

theorem listCmp_swap (f : α → α → Ordering)
    (hf : ∀ u v, f u v = (f v u).swap) :
    ∀ l₁ l₂ : List α, listCmp f l₁ l₂ = (listCmp f l₂ l₁).swap := by
  intro l₁
  induction l₁ with
  | nil => intro l₂; cases l₂ <;> rfl
  | cons a as ih =>
    intro l₂
    cases l₂ with
    | nil => rfl
    | cons b bs =>
      simp only [listCmp, Ordering.then_swap, ← hf a b, ← ih bs]

theorem strCmp_swap (a b : String) : strCmp a b = (strCmp b a).swap :=
  listCmp_swap charCmp charCmp_swap _ _

theorem pointCmp_swap (a b : Point) : Point.cmp a b = (Point.cmp b a).swap := by
  unfold Point.cmp
  rw [natCmp_swap a.line b.line, natCmp_swap a.col b.col, Ordering.then_swap]

theorem pointCmp_self (a : Point) : Point.cmp a a = .eq := by
  simp [Point.cmp, natCmp_self, Ordering.then]

theorem fnameOrdCmp_swap (a b : Filename) :
    Filename.ordCmp a b = (Filename.ordCmp b a).swap :=
  strCmp_swap _ _

theorem locOrdCmp_swap (a b : Location) :
    Location.ordCmp a b = (Location.ordCmp b a).swap := by
  cases a <;> cases b <;>
    simp only [Location.ordCmp, Ordering.then_swap, ← pointCmp_swap] <;> rfl

theorem fposOrdCmp_swap (a b : FilePosition) :
    FilePosition.ordCmp a b = (FilePosition.ordCmp b a).swap := by
  unfold FilePosition.ordCmp
  rw [fnameOrdCmp_swap, locOrdCmp_swap, Ordering.then_swap]

theorem basicOrdCmp_swap (a b : BasicPosition) :
    BasicPosition.ordCmp a b = (BasicPosition.ordCmp b a).swap := by
  cases a <;> cases b <;>
    simp only [BasicPosition.ordCmp, ← fposOrdCmp_swap, ← fnameOrdCmp_swap,
      ← listCmp_swap natCmp natCmp_swap, ← strCmp_swap] <;> rfl

theorem basicPcmp_eq_ordCmp (a b : BasicPosition) :
    BasicPosition.pcmp a b = some (BasicPosition.ordCmp a b) := by
  cases a <;> cases b <;> rfl

theorem dwarfOrdCmp_swap (cmpT : T → T → Ordering) (cmpD : D → D → Ordering)
    (hT : ∀ u v, cmpT u v = (cmpT v u).swap)
    (hD : ∀ u v, cmpD u v = (cmpD v u).swap) :
    ∀ a b : DWARFPosition T D,
      DWARFPosition.ordCmp cmpT cmpD a b =
        (DWARFPosition.ordCmp cmpT cmpD b a).swap := by
  intro a
  induction a with
  | Def id1 pos1 =>
    intro b
    cases b <;>
      simp only [DWARFPosition.ordCmp, Ordering.then_swap, ← hD,
        ← fposOrdCmp_swap] <;> rfl
  | TypeDef id1 pos1 =>
    intro b
    cases b <;>
      simp only [DWARFPosition.ordCmp, Ordering.then_swap, ← hT,
        ← fposOrdCmp_swap] <;> rfl
  | Block ctx1 pos1 ih =>
    intro b
    cases b <;>
      simp only [DWARFPosition.ordCmp, Ordering.then_swap, ← ih,
        ← fposOrdCmp_swap] <;> rfl
  | Basic pos1 =>
    intro b
    cases b <;>
      simp only [DWARFPosition.ordCmp, ← basicOrdCmp_swap] <;> rfl

theorem dwarfPcmp_eq_ordCmp (cmpT : T → T → Ordering) (cmpD : D → D → Ordering)
    (a b : DWARFPosition T D) :
    DWARFPosition.pcmp cmpT cmpD a b =
      some (DWARFPosition.ordCmp cmpT cmpD a b) := by
  cases a <;> cases b <;> rfl

theorem swap_eq_lt_iff (o : Ordering) : o.swap = .lt ↔ o = .gt := by
  cases o <;> simp [Ordering.swap]

/-- Interning a string whose content is already stored returns the stored
reference and leaves the table untouched. -/
theorem intern_found {t : StrIntern} {s : StrRef} {r : StrRef}
    (h : StrIntern.lookup t s.content = some r) :
    StrIntern.intern t s = (r, t) := by
  unfold StrIntern.intern
  rw [h]

/-- A stored binding survives appending more references to the table. -/
theorem lookup_append_of_some {t : StrIntern} {c : String} {r : StrRef}
    (h : StrIntern.lookup t c = some r) (l : List StrRef) :
    StrIntern.lookup (t ++ l) c = some r := by
  induction t with
  | nil => simp [StrIntern.lookup] at h
  | cons r' t ih =>
    simp only [StrIntern.lookup] at h
    rw [List.cons_append]
    simp only [StrIntern.lookup]
    by_cases hc : r'.content == c
    · rw [if_pos hc] at h ⊢; exact h
    · rw [if_neg hc] at h ⊢; exact ih h

/-- Appending a fresh reference makes its content found, at that
reference. -/
theorem lookup_append_self (t : StrIntern) (s : StrRef)
    (h : StrIntern.lookup t s.content = none) :
    StrIntern.lookup (t ++ [s]) s.content = some s := by
  induction t with
  | nil => simp [StrIntern.lookup]
  | cons r' t ih =>
    simp only [StrIntern.lookup] at h
    rw [List.cons_append]
    simp only [StrIntern.lookup]
    by_cases hc : r'.content == s.content
    · rw [if_pos hc] at h; exact absurd h (by simp)
    · rw [if_neg hc] at h ⊢; exact ih h

/-- After `intern t s`, the table maps the content of `s` to the returned
reference. -/
theorem lookup_after_intern (t : StrIntern) (s : StrRef) :
    StrIntern.lookup (StrIntern.intern t s).2 s.content =
      some (StrIntern.intern t s).1 := by
  unfold StrIntern.intern
  cases h : StrIntern.lookup t s.content with
  | some r => exact h
  | none => exact lookup_append_self t s h

/-- A stored binding survives one further `intern` call. -/
theorem lookup_intern_stable {t : StrIntern} {c : String} {r : StrRef}
    (h : StrIntern.lookup t c = some r) (s : StrRef) :
    StrIntern.lookup (StrIntern.intern t s).2 c = some r := by
  unfold StrIntern.intern
  cases hx : StrIntern.lookup t s.content with
  | some _ => exact h
  | none => exact lookup_append_of_some h [s]

/-- A stored binding survives any further sequence of `intern` calls. -/
theorem lookup_internAll_stable {t : StrIntern} {c : String} {r : StrRef}
    (h : StrIntern.lookup t c = some r) (ws : List StrRef) :
    StrIntern.lookup (StrIntern.internAll t ws) c = some r := by
  induction ws generalizing t with
  | nil => exact h
  | cons w ws ih => exact ih (lookup_intern_stable h w)

theorem some_swap_lt_iff (o : Ordering) :
    some o.swap = some Ordering.lt ↔ some o = some Ordering.gt := by
  cases o <;> simp [Ordering.swap]

/-! ### Claims -/

/-- Claim C1: on any `StrIntern` table, two `intern` calls with equal string
content — even distinct in-memory copies, and even separated by arbitrarily
many other `intern` calls over the table's lifetime — return the identical
stored reference; when the content was interned before, `intern` returns the
previously stored reference. -/
theorem c1_intern_canonical_stable (t : StrIntern) (a b : StrRef)
    (ws : List StrRef) (hab : a.content = b.content) :
    (StrIntern.intern (StrIntern.internAll (StrIntern.intern t a).2 ws) b).1 =
      (StrIntern.intern t a).1 ∧
    (∀ r, StrIntern.lookup t a.content = some r →
      (StrIntern.intern t a).1 = r) := by
  constructor
  · have h1 := lookup_after_intern t a
    have h2 := lookup_internAll_stable h1 ws
    rw [hab] at h2
    rw [intern_found h2]
  · intro r hr
    rw [intern_found hr]

theorem c1_witness :
    (⟨0, "foo.rs"⟩ : StrRef).content = (⟨1, "foo.rs"⟩ : StrRef).content ∧
    (StrIntern.intern (StrIntern.internAll
        (StrIntern.intern [] ⟨0, "foo.rs"⟩).2 [⟨2, "bar"⟩]) ⟨1, "foo.rs"⟩).1 =
      (StrIntern.intern [] ⟨0, "foo.rs"⟩).1 :=
  ⟨rfl,
   (c1_intern_canonical_stable [] ⟨0, "foo.rs"⟩ ⟨1, "foo.rs"⟩ [⟨2, "bar"⟩]
     rfl).1⟩

/-- Claim C2: `Filename` and `Symbol` equality, ordering and hashing are
defined over the wrapped reference's storage identity, not its text:
independently allocated equal-content strings wrap to unequal values, the
same reference wraps to equal values, `partial_cmp` compares the storage
addresses, and the hash is the storage address. -/
theorem c2_identity_eq_ord_hash (a b : Filename) (x y : Symbol) :
    (a.ref.addr ≠ b.ref.addr → a.ref.content = b.ref.content →
      Filename.beq a b = false) ∧
    (a.ref = b.ref → Filename.beq a b = true) ∧
    Filename.pcmp a b = some (natCmp a.ref.addr b.ref.addr) ∧
    Filename.hash a = a.ref.addr ∧
    (x.ref.addr ≠ y.ref.addr → x.ref.content = y.ref.content →
      Symbol.beq x y = false) ∧
    (x.ref = y.ref → Symbol.beq x y = true) ∧
    Symbol.pcmp x y = some (natCmp x.ref.addr y.ref.addr) ∧
    Symbol.hash x = x.ref.addr := by
  refine ⟨?_, ?_, rfl, rfl, ?_, ?_, rfl, rfl⟩
  · intro hne _
    simp [Filename.beq, hne]
  · intro he
    simp [Filename.beq, he]
  · intro hne _
    simp [Symbol.beq, hne]
  · intro he
    simp [Symbol.beq, he]

theorem c2_witness :
    (⟨⟨0, "x"⟩⟩ : Filename).ref.addr ≠ (⟨⟨1, "x"⟩⟩ : Filename).ref.addr ∧
    Filename.beq ⟨⟨0, "x"⟩⟩ ⟨⟨1, "x"⟩⟩ = false ∧
    Symbol.beq ⟨⟨2, "y"⟩⟩ ⟨⟨2, "y"⟩⟩ = true :=
  ⟨by decide,
   (c2_identity_eq_ord_hash ⟨⟨0, "x"⟩⟩ ⟨⟨1, "x"⟩⟩ ⟨⟨2, "y"⟩⟩ ⟨⟨2, "y"⟩⟩).1
     (by decide) rfl,
   (c2_identity_eq_ord_hash ⟨⟨0, "x"⟩⟩ ⟨⟨1, "x"⟩⟩ ⟨⟨2, "y"⟩⟩
     ⟨⟨2, "y"⟩⟩).2.2.2.2.2.1 rfl⟩

/-- Claim C3 (code evaluated at the failing input): the source's
`Span`/`Span` equality arm tests each span's own endpoints against each
other, so two identical proper spans compare unequal while two distinct
degenerate spans compare equal — contradicting the claimed pairwise
comparison of corresponding endpoints. -/
theorem c3_span_eq_failing_eval :
    Location.beq (.Span ⟨1, 1⟩ ⟨2, 2⟩) (.Span ⟨1, 1⟩ ⟨2, 2⟩) = false ∧
    Location.beq (.Span ⟨1, 1⟩ ⟨1, 1⟩) (.Span ⟨2, 2⟩ ⟨2, 2⟩) = true :=
  ⟨rfl, rfl⟩

/-- Claim C4: across distinct variants, `BasicPosition` comparison realises
the rank order `Content < File < CmdLine < Synthetic` and `DWARFPosition`
comparison realises `Def < TypeDef < Block < Basic`; and in both types,
for every pair (same- or cross-variant), comparison yields `Less` exactly
when the swapped comparison yields `Greater`. -/
theorem c4_cross_variant_order_antisym {T D : Type}
    (cmpT : T → T → Ordering) (cmpD : D → D → Ordering)
    (hT : ∀ u v, cmpT u v = (cmpT v u).swap)
    (hD : ∀ u v, cmpD u v = (cmpD v u).swap) :
    (∀ x y : BasicPosition, BasicPosition.rank x ≠ BasicPosition.rank y →
      BasicPosition.pcmp x y =
        some (natCmp (BasicPosition.rank x) (BasicPosition.rank y))) ∧
    (∀ x y : BasicPosition,
      (BasicPosition.pcmp x y = some .lt ↔
        BasicPosition.pcmp y x = some .gt)) ∧
    (∀ x y : DWARFPosition T D,
      DWARFPosition.rank x ≠ DWARFPosition.rank y →
      DWARFPosition.pcmp cmpT cmpD x y =
        some (natCmp (DWARFPosition.rank x) (DWARFPosition.rank y))) ∧
    (∀ x y : DWARFPosition T D,
      (DWARFPosition.pcmp cmpT cmpD x y = some .lt ↔
        DWARFPosition.pcmp cmpT cmpD y x = some .gt)) := by
  refine ⟨?_, ?_, ?_, ?_⟩
  · intro x y h
    cases x <;> cases y <;> first | exact absurd rfl h | rfl
  · intro x y
    rw [basicPcmp_eq_ordCmp x y, basicPcmp_eq_ordCmp y x,
      basicOrdCmp_swap x y]
    exact some_swap_lt_iff _
  · intro x y h
    cases x <;> cases y <;> first | exact absurd rfl h | rfl
  · intro x y
    rw [dwarfPcmp_eq_ordCmp cmpT cmpD x y, dwarfPcmp_eq_ordCmp cmpT cmpD y x,
      dwarfOrdCmp_swap cmpT cmpD hT hD x y]
    exact some_swap_lt_iff _

theorem c4_witness :
    BasicPosition.pcmp (.File ⟨⟨0, "a"⟩⟩) (.Synthetic "s") = some .lt ∧
    DWARFPosition.pcmp natCmp natCmp
      (.TypeDef 0 ⟨⟨⟨0, "a"⟩⟩, .Point ⟨1, 1⟩⟩)
      (.Basic (.CmdLine [])) = some .lt :=
  ⟨((c4_cross_variant_order_antisym natCmp natCmp natCmp_swap natCmp_swap).1
      (.File ⟨⟨0, "a"⟩⟩) (.Synthetic "s") (by decide)).trans (by decide),
   ((c4_cross_variant_order_antisym natCmp natCmp natCmp_swap
      natCmp_swap).2.2.1
      (.TypeDef 0 ⟨⟨⟨0, "a"⟩⟩, .Point ⟨1, 1⟩⟩) (.Basic (.CmdLine []))
      (by decide)).trans (by decide)⟩

/-- Claim C5: `PositionInfo::location` on `BasicPosition` returns `None`
for `CmdLine` and `Synthetic`, `Some((filename, None))` for `File`, and
`Some((filename, Some(loc)))` for `Content`. -/
theorem c5_basic_position_location (fp : FilePosition) (f : Filename)
    (idxs : List Nat) (d : String) :
    BasicPosition.location (.Content fp) = some (fp.filename, some fp.loc) ∧
    BasicPosition.location (.File f) = some (f, none) ∧
    BasicPosition.location (.CmdLine idxs) = none ∧
    BasicPosition.location (.Synthetic d) = none :=
  ⟨rfl, rfl, rfl, rfl⟩

/-- Claim C6 counterexample: `Symbol`'s `Debug` impl renders the text
content itself (`write!(f, "{}", self.0)`), not an identity token derived
from the storage address — at address 0 with content `"x"` the rendering is
`"x"`, which is not the address token. -/
theorem c6_debug_identity_cx :
    Symbol.debug ⟨⟨0, "x"⟩⟩ = "x" ∧ ptrString 0 ≠ "x" :=
  ⟨rfl, by decide⟩

/-- Claim C6 as amended: `Filename`'s `Debug` renders the storage-address
token (independent of the text), while `Symbol`'s `Debug` renders the text
content; `Display` renders the text content for both types. -/
theorem c6_debug_display_amended (f : Filename) (s : Symbol) :
    Filename.debug f = ptrString f.ref.addr ∧
    (∀ (a : Nat) (c c' : String),
      Filename.debug ⟨⟨a, c⟩⟩ = Filename.debug ⟨⟨a, c'⟩⟩) ∧
    Filename.display f = f.ref.content ∧
    Symbol.debug s = s.ref.content ∧
    Symbol.display s = s.ref.content :=
  ⟨rfl, fun _ _ _ => rfl, rfl, rfl, rfl⟩

/-- Claim C7: `Location` display renders a same-line span as
`line.startcol-endcol`, a line-crossing span as `start-end` with each point
as `line.col`, and a lone point as `line.col`. -/
theorem c7_location_display (s e p : Point) :
    (s.line = e.line → Location.display (.Span s e) =
      toString s.line ++ "." ++ toString s.col ++ "-" ++ toString e.col) ∧
    (s.line ≠ e.line → Location.display (.Span s e) =
      Point.display s ++ "-" ++ Point.display e) ∧
    Location.display (.Point p) = Point.display p ∧
    Point.display p = toString p.line ++ "." ++ toString p.col := by
  refine ⟨?_, ?_, rfl, rfl⟩
  · intro h
    simp [Location.display, h]
  · intro h
    simp [Location.display, h]

theorem c7_witness :
    Location.display (.Span ⟨3, 4⟩ ⟨3, 9⟩) = "3.4-9" ∧
    Location.display (.Span ⟨3, 4⟩ ⟨5, 1⟩) = "3.4-5.1" :=
  ⟨((c7_location_display ⟨3, 4⟩ ⟨3, 9⟩ ⟨1, 1⟩).1 rfl).trans (by decide),
   ((c7_location_display ⟨3, 4⟩ ⟨5, 1⟩ ⟨1, 1⟩).2.1 (by decide)).trans
     (by decide)⟩

/-- Claim C8: a proper span (distinct endpoints) is unequal to itself under
the source's `Location` equality, yet `partial_cmp` on the same pair
returns `Some(Equal)` — so comparison reporting `Equal` does not imply
equality. -/
theorem c8_proper_span_irrefl (s e : Point) (h : s ≠ e) :
    Location.beq (.Span s e) (.Span s e) = false ∧
    Location.pcmp (.Span s e) (.Span s e) = some Ordering.eq := by
  constructor
  · have hb : Point.beq s e = false := by
      by_cases h1 : s.line = e.line
      · by_cases h2 : s.col = e.col
        · exact absurd (by cases s; cases e; cases h1; cases h2; rfl) h
        · simp [Point.beq, h2]
      · simp [Point.beq, h1]
    simp [Location.beq, hb]
  · simp [Location.pcmp, pointCmp_self, Ordering.then]

theorem c8_witness :
    (⟨1, 1⟩ : Point) ≠ (⟨1, 2⟩ : Point) ∧
    Location.beq (.Span ⟨1, 1⟩ ⟨1, 2⟩) (.Span ⟨1, 1⟩ ⟨1, 2⟩) = false :=
  ⟨by decide, (c8_proper_span_irrefl ⟨1, 1⟩ ⟨1, 2⟩ (by decide)).1⟩

/-- Claim C9: interning content already stored leaves the table's
observable state unchanged (`len` and `strings`), while a first-time
interning extends `strings` by the new reference and increments `len` by
exactly one. -/
theorem c9_intern_frame (t : StrIntern) (s : StrRef) :
    ((StrIntern.lookup t s.content).isSome →
      StrIntern.len (StrIntern.intern t s).2 = StrIntern.len t ∧
      StrIntern.strings (StrIntern.intern t s).2 = StrIntern.strings t) ∧
    (StrIntern.lookup t s.content = none →
      StrIntern.len (StrIntern.intern t s).2 = StrIntern.len t + 1 ∧
      StrIntern.strings (StrIntern.intern t s).2 =
        StrIntern.strings t ++ [s]) := by
  constructor
  · intro h
    obtain ⟨r, hr⟩ := Option.isSome_iff_exists.mp h
    rw [intern_found hr]
    exact ⟨rfl, rfl⟩
  · intro h
    unfold StrIntern.intern
    rw [h]
    simp [StrIntern.len, StrIntern.strings]

theorem c9_witness :
    (StrIntern.lookup [⟨0, "a"⟩] (⟨1, "a"⟩ : StrRef).content).isSome = true ∧
    StrIntern.len (StrIntern.intern [⟨0, "a"⟩] ⟨1, "a"⟩).2 = 1 :=
  ⟨by decide,
   ((c9_intern_frame [⟨0, "a"⟩] ⟨1, "a"⟩).1 (by decide)).1.trans (by decide)⟩

/-- Claim C10: `DWARFPosition` equality and comparison are total functions
defined by structural recursion on the exclusively-owned `Block` context
chain: `partial_cmp` always returns a result, the `Block` equality arm
recurses on the strictly smaller context, and the nesting depth strictly
decreases along that chain. -/
theorem c10_dwarf_cmp_total {T D : Type}
    (eqT : T → T → Bool) (eqD : D → D → Bool)
    (cmpT : T → T → Ordering) (cmpD : D → D → Ordering)
    (x y : DWARFPosition T D) :
    (∃ o, DWARFPosition.pcmp cmpT cmpD x y = some o) ∧
    (∀ ctx1 pos1 ctx2 pos2,
      DWARFPosition.beq eqT eqD (.Block ctx1 pos1) (.Block ctx2 pos2) =
        (DWARFPosition.beq eqT eqD ctx1 ctx2 &&
          FilePosition.beq pos1 pos2)) ∧
    (∀ (ctx : DWARFPosition T D) (pos : FilePosition),
      DWARFPosition.depth ctx < DWARFPosition.depth (.Block ctx pos)) := by
  refine ⟨⟨_, dwarfPcmp_eq_ordCmp cmpT cmpD x y⟩, fun _ _ _ _ => rfl,
    fun ctx pos => ?_⟩
  simp [DWARFPosition.depth]

end SaltCommon
